import Mathlib

/-!
Verification of the pose Kalman-filter module (`kalman_filter.py`) of the
Pushing-Imitation repository.

The numeric pipeline is embedded shallowly:

* IEEE-754 doubles are modelled as `Fl := Option ℚ`, where `none` plays the
  role of NaN and `some q` a finite value; float rounding is abstracted to
  exact rational arithmetic (no comparison settled by any theorem below is
  close enough to a rounding boundary for this to matter).  The double
  constant `np.pi` is the exact rational value of the IEEE-754 double nearest
  to π, namely 884279719003555 / 2^48.
* NumPy arrays are embedded as shape-carrying matrices/vectors whose
  operations fail (`Except`) exactly where NumPy raises: matmul dimension
  mismatches, broadcasting mismatches, reductions of empty arrays, reshape
  size mismatches, and `np.zeros()` called without a shape argument.
* `scipy.spatial.transform.Rotation.from_matrix(...).as_euler` used at
  extraction, and `np.linalg.pinv`, are external library routines; they are
  taken as parameters of the embedding (with the shape contract of `pinv` as
  a hypothesis where needed).  No behaviour settled against the embedding
  depends on their values.
-/

namespace PoseKF

/-- Scalar double: `none` models NaN, `some q` a finite value. -/
def Fl : Type := Option ℚ

instance : DecidableEq Fl := by unfold Fl; infer_instance

instance : Inhabited Fl := ⟨(none : Option ℚ)⟩

/-- Embed a finite rational as a scalar. -/
def fin_ (q : ℚ) : Fl := some q

/-- NaN scalar. -/
def nanF : Fl := (none : Option ℚ)

/-- NaN test, `np.isnan`. -/
def Fl.isnan (a : Fl) : Bool := (a : Option ℚ).isNone

/-- Addition with NaN propagation. -/
def Fl.add (a b : Fl) : Fl :=
  match (a : Option ℚ), (b : Option ℚ) with
  | some x, some y => some (x + y)
  | _, _ => (none : Option ℚ)

/-- Subtraction with NaN propagation. -/
def Fl.sub (a b : Fl) : Fl :=
  match (a : Option ℚ), (b : Option ℚ) with
  | some x, some y => some (x - y)
  | _, _ => (none : Option ℚ)

/-- Multiplication with NaN propagation (NumPy: any product with NaN is NaN). -/
def Fl.mul (a b : Fl) : Fl :=
  match (a : Option ℚ), (b : Option ℚ) with
  | some x, some y => some (x * y)
  | _, _ => (none : Option ℚ)

/-- Comparison `a < b`; any comparison involving NaN is false, as in IEEE 754. -/
def Fl.lt (a b : Fl) : Bool :=
  match (a : Option ℚ), (b : Option ℚ) with
  | some x, some y => decide (x < y)
  | _, _ => false

/-- Exact rational value of the IEEE-754 double `np.pi`. -/
def npPi : ℚ := 884279719003555 / 281474976710656

/-- Triple of finite scalars: one row of the `positions` / unwrapped-angles
(n, 3) arrays. -/
def V3 : Type := ℚ × ℚ × ℚ

instance : DecidableEq V3 := by unfold V3; infer_instance

instance : Inhabited V3 := ⟨((0 : ℚ), (0 : ℚ), (0 : ℚ))⟩

/-- Triple of possibly-NaN scalars: one row of the `positions` / `angles`
arrays before trimming. -/
def FV3 : Type := Fl × Fl × Fl

instance : DecidableEq FV3 := by unfold FV3; infer_instance

instance : Inhabited FV3 := ⟨(nanF, nanF, nanF)⟩

/-! ### Angle unwrapping (source lines 73–81)

The source walks `not_nan_angles` (frames whose angles are present) in frame
order; for each row `i ≥ 1` and each of the three scalar dimensions `j`
independently, it compares the raw current value with the already-corrected
previous row and shifts the current value by `±2π` once when the difference
crosses `±1.8π`. -/

/-- Correction of one scalar sample against the corrected previous sample
(loop body of source lines 77–80). -/
def unwrapStep (prev cur : ℚ) : ℚ :=
  if cur - prev > 9 / 5 * npPi then cur - 2 * npPi
  else if cur - prev < -(9 / 5 * npPi) then cur + 2 * npPi
  else cur

/-- Apply `unwrapStep` componentwise to a row, against the corrected
previous row. -/
def unwrapStepV3 (prev cur : V3) : V3 :=
  (unwrapStep prev.1 cur.1, unwrapStep prev.2.1 cur.2.1, unwrapStep prev.2.2 cur.2.2)

/-- Tail of the in-place correction loop: `prev` is the already-corrected
previous row. -/
def unwrapFrom (prev : V3) : List V3 → List V3
  | [] => []
  | c :: rest =>
    let c' := unwrapStepV3 prev c
    c' :: unwrapFrom c' rest

/-- Correction loop over the present rows (source lines 75–80): row 0 is
left unchanged, each later row is corrected against the corrected row
before it. -/
def unwrap3 : List V3 → List V3
  | [] => []
  | a :: rest => a :: unwrapFrom a rest

/-- Tail of the single-dimension correction loop: `prev` is the corrected
previous sample of this dimension. -/
def unwrapDimFrom (prev : ℚ) : List ℚ → List ℚ
  | [] => []
  | c :: rest =>
    let c' := unwrapStep prev c
    c' :: unwrapDimFrom c' rest

/-- Single-dimension form of the correction loop: the source's inner `j`
loop acts on each of the three scalar dimensions independently, and this is
the recursion it performs on one dimension's sequence of present samples. -/
def unwrapDim : List ℚ → List ℚ
  | [] => []
  | a :: rest => a :: unwrapDimFrom a rest

/-- Modelled from the spec (§4.2), tail of `specUnwrapDim`. -/
def specUnwrapDimFrom (prev : ℚ) : List ℚ → List ℚ
  | [] => []
  | c :: rest =>
    if c - prev > 9 / 5 * npPi then
      (c - 2 * npPi) :: specUnwrapDimFrom (c - 2 * npPi) (rest.map (fun v => v - 2 * npPi))
    else if c - prev < -(9 / 5 * npPi) then
      (c + 2 * npPi) :: specUnwrapDimFrom (c + 2 * npPi) (rest.map (fun v => v + 2 * npPi))
    else
      c :: specUnwrapDimFrom c rest
  termination_by l => l.length
  decreasing_by all_goals simp [List.length_map]

/-- Modelled from the spec (§4.2), for comparison with the source's loop:
the spec's words say that when the forward difference between consecutive
present samples crosses `±1.8π`, `2π` is subtracted from (resp. added to)
"the current and all subsequent values in that dimension's remaining run".
This definition follows those words literally: the shift is applied to the
whole remaining run, not only to the current sample. -/
def specUnwrapDim : List ℚ → List ℚ
  | [] => []
  | a :: rest => a :: specUnwrapDimFrom a rest

/-! ### NumPy arrays and the errors their operations raise

Shapes are explicit data; an operation fails exactly where NumPy raises.
The error type also carries the two error names the spec introduces
(`EmptyTrackError`, `InvalidConfigurationError`); the source never raises
either, and the constructors exist so that theorems can compare the errors
the source does raise against them. -/

inductive NpError : Type
  /-- ValueError from `@` on incompatible inner dimensions. -/
  | matmulShapeMismatch
  /-- ValueError from an elementwise operation on non-broadcastable shapes. -/
  | broadcastShapeMismatch
  /-- ValueError from `np.min` / `np.max` of an empty array. -/
  | zeroSizeReduction
  /-- TypeError from `np.zeros()` called without its required shape argument. -/
  | zerosMissingArg
  /-- IndexError from indexing a 1-D array with two indices. -/
  | indexError
  /-- ValueError from `reshape` to an incompatible size. -/
  | reshapeError
  /-- Modelled from the spec: the error the spec says an all-missing track
  raises; no code in the source raises it. -/
  | emptyTrackError
  /-- Modelled from the spec: the error the spec says invalid configurations
  raise; no code in the source raises it. -/
  | invalidConfigurationError
  deriving DecidableEq

/-- A 2-D NumPy array: explicit shape, entries as a function (entries
outside the shape are never consulted by any operation below). -/
structure NMat where
  rows : Nat
  cols : Nat
  entry : Nat → Nat → Fl

/-- A 1-D NumPy array. -/
structure NVec where
  dim : Nat
  entry : Nat → Fl

def NMat.transpose (a : NMat) : NMat := ⟨a.cols, a.rows, fun i j => a.entry j i⟩

/-- Dot product of length-`k` prefixes of two entry streams. -/
def dotFl (f g : Nat → Fl) (k : Nat) : Fl :=
  (List.range k).foldl (fun acc j => Fl.add acc (Fl.mul (f j) (g j))) (fin_ 0)

/-- Matrix product `a @ b`; NumPy raises when the inner dimensions differ. -/
def matmul (a b : NMat) : Except NpError NMat :=
  if a.cols = b.rows then
    .ok ⟨a.rows, b.cols, fun i j => dotFl (fun t => a.entry i t) (fun t => b.entry t j) a.cols⟩
  else .error .matmulShapeMismatch

/-- Matrix–vector product `a @ v`. -/
def matvec (a : NMat) (v : NVec) : Except NpError NVec :=
  if a.cols = v.dim then
    .ok ⟨a.rows, fun i => dotFl (fun t => a.entry i t) v.entry a.cols⟩
  else .error .matmulShapeMismatch

/-- Broadcast of one axis: equal sizes, or a size-1 axis stretched. -/
def bdim (d1 d2 : Nat) : Option Nat :=
  if d1 = d2 then some d1 else if d1 = 1 then some d2 else if d2 = 1 then some d1 else none

/-- Index into a possibly-stretched axis. -/
def bidx (d i : Nat) : Nat := if d = 1 then 0 else i

/-- Elementwise binary operation with NumPy 2-D broadcasting. -/
def ewise (op : Fl → Fl → Fl) (a b : NMat) : Except NpError NMat :=
  match bdim a.rows b.rows, bdim a.cols b.cols with
  | some r, some c =>
    .ok ⟨r, c, fun i j =>
      op (a.entry (bidx a.rows i) (bidx a.cols j)) (b.entry (bidx b.rows i) (bidx b.cols j))⟩
  | _, _ => .error .broadcastShapeMismatch

def addM : NMat → NMat → Except NpError NMat := ewise Fl.add

def subM : NMat → NMat → Except NpError NMat := ewise Fl.sub

/-- Elementwise binary operation on 1-D arrays with broadcasting. -/
def vwise (op : Fl → Fl → Fl) (a b : NVec) : Except NpError NVec :=
  match bdim a.dim b.dim with
  | some d => .ok ⟨d, fun i => op (a.entry (bidx a.dim i)) (b.entry (bidx b.dim i))⟩
  | none => .error .broadcastShapeMismatch

def addV : NVec → NVec → Except NpError NVec := vwise Fl.add

def subV : NVec → NVec → Except NpError NVec := vwise Fl.sub

/-- Identity matrix `np.eye(n)`. -/
def eye (n : Nat) : NMat := ⟨n, n, fun i j => if i = j then fin_ 1 else fin_ 0⟩

/-- Constant-filled matrix `np.full((r, c), v)`. -/
def fullM (r c : Nat) (v : ℚ) : NMat := ⟨r, c, fun _ _ => fin_ v⟩

/-- Kronecker product `np.kron`. -/
def kron (a b : NMat) : NMat :=
  ⟨a.rows * b.rows, a.cols * b.cols, fun i j =>
    Fl.mul (a.entry (i / b.rows) (j / b.cols)) (b.entry (i % b.rows) (j % b.cols))⟩

/-- Scalar multiple of a matrix. -/
def scaleM (a : NMat) (s : ℚ) : NMat := ⟨a.rows, a.cols, fun i j => Fl.mul (a.entry i j) (fin_ s)⟩

/-- Constant diagonal matrix `np.diag([v] * n)`. -/
def diagConst (n : Nat) (v : ℚ) : NMat :=
  ⟨n, n, fun i j => if i = j then fin_ v else fin_ 0⟩

/-- Matrix from a row-major list of rows, as `np.array([[...], ...])`. -/
def ofRows (l : List (List ℚ)) : NMat :=
  ⟨l.length, (l.getD 0 []).length, fun i j => fin_ ((l.getD i []).getD j 0)⟩

/-- Reduction `np.min` over a list of indices; empty arrays raise. -/
def npMinL : List Nat → Except NpError Nat
  | [] => .error .zeroSizeReduction
  | a :: rest => .ok (rest.foldl Nat.min a)

/-- Reduction `np.max` over a list of indices; empty arrays raise. -/
def npMaxL : List Nat → Except NpError Nat
  | [] => .error .zeroSizeReduction
  | a :: rest => .ok (rest.foldl Nat.max a)

/-! ### The pose pipeline (source lines 59–144) -/

/-- A 4×4 homogeneous pose matrix (entries as a function; only the rotation
block and the translation column are read). -/
def Pose4 : Type := Nat → Nat → ℚ

/-- Conversion of the pose track to the `positions` and `angles` channels
(source lines 60–71): a present pose contributes its translation column and
its Euler angles; an absent frame contributes an all-NaN row to both.
`asEuler` stands for the external routine
`Rotation.from_matrix(pose[:3, :3]).as_euler('XYZ')`. -/
def toChannels (asEuler : Pose4 → V3) (poses : List (Option Pose4)) :
    List FV3 × List FV3 :=
  (poses.map fun p =>
     match p with
     | some pose => (fin_ (pose 0 3), fin_ (pose 1 3), fin_ (pose 2 3))
     | none => (nanF, nanF, nanF),
   poses.map fun p =>
     match p with
     | some pose => (fin_ (asEuler pose).1, fin_ (asEuler pose).2.1, fin_ (asEuler pose).2.2)
     | none => (nanF, nanF, nanF))

/-- View of a scalar as the option it is. -/
def Fl.toOpt (a : Fl) : Option ℚ := a

/-- Row-major flattening of the non-NaN scalars, `angles[~np.isnan(angles)]`. -/
def notNanFlat (l : List FV3) : List ℚ :=
  l.flatMap (fun v => [v.1, v.2.1, v.2.2].filterMap Fl.toOpt)

/-- Grouping of a flat scalar list into rows of three. -/
def regroup3 : List ℚ → List V3
  | a :: b :: c :: rest => (a, b, c) :: regroup3 rest
  | _ => []

/-- Reshape `(-1, 3)`: raises when the flat size is not divisible by 3. -/
def reshapeRows3 (l : List ℚ) : Except NpError (List V3) :=
  if l.length % 3 = 0 then .ok (regroup3 l) else .error .reshapeError

/-- Row-major flattening of corrected rows, `not_nan_angles.reshape((-1))`. -/
def flat3 (l : List V3) : List ℚ := l.flatMap (fun v => [v.1, v.2.1, v.2.2])

/-- Write one scalar back: a non-NaN slot consumes the next corrected value,
a NaN slot is left untouched. -/
def fillVal (a : Fl) (ws : List ℚ) : Fl × List ℚ :=
  match Fl.toOpt a, ws with
  | some _, w :: ws' => (fin_ w, ws')
  | _, _ => (a, ws)

/-- Fancy-indexing assignment `angles[~np.isnan(angles)] = flat`: the
corrected scalars are written back into the non-NaN slots in row-major
order. -/
def writeBackFlat : List FV3 → List ℚ → List FV3
  | [], _ => []
  | v :: rest, ws =>
    let r1 := fillVal v.1 ws
    let r2 := fillVal v.2.1 r1.2
    let r3 := fillVal v.2.2 r2.2
    (r1.1, r2.1, r3.1) :: writeBackFlat rest r3.2

/-- The whole unwrapping step (source lines 73–81): select the non-NaN
scalars, reshape to rows of three, run the correction loop, write back. -/
def unwrapAngles (angles : List FV3) : Except NpError (List FV3) := do
  let rows ← reshapeRows3 (notNanFlat angles)
  pure (writeBackFlat angles (flat3 (unwrap3 rows)))

/-- Indices of frames whose x-position is present,
`np.nonzero(~np.isnan(positions[:, 0]))` (source line 88). -/
def presentIdx (positions : List FV3) : List Nat :=
  (List.range positions.length).filter
    (fun i => !(Fl.isnan (positions.getD i default).1))

/-- Per-channel transition block (source lines 100–102). -/
def matF3 (dt : ℚ) : NMat :=
  ofRows [[1, dt, 1/2 * dt^2], [0, 1, dt], [0, 0, 1]]

/-- Full 18×18 transition matrix `np.kron(np.eye(6), F)` (source line 103). -/
def matF (dt : ℚ) : NMat := kron (eye 6) (matF3 dt)

/-- Per-channel process-noise block (source lines 106–108). -/
def matQ3 (dt : ℚ) : NMat :=
  ofRows [[dt^4 / 4, dt^3 / 2, dt^2 / 2], [dt^3 / 2, dt^2, dt], [dt^2 / 2, dt, 1]]

/-- Full process noise `np.kron(np.eye(6), Q) * sq_sigma_a` (source line 109). -/
def matQ (dt sq_sigma_a : ℚ) : NMat := scaleM (kron (eye 6) (matQ3 dt)) sq_sigma_a

/-- Observation matrix: `np.zeros([6, 18])` with `H[i, 3 i] = 1` for
`i < 6` (source lines 112–114); every written column index `3 i` is in
shape, so the entry function needs no row bound. -/
def matH : NMat := ⟨6, 18, fun i j => if j = 3 * i then fin_ 1 else fin_ 0⟩

/-- State initialization (source lines 120–123): the six value slots
`0, 3, 6` and `9, 12, 15` take the first trimmed frame's position and
angles, every other slot is zero. -/
def initState (p a : FV3) : NVec :=
  ⟨18, fun k =>
    if k = 0 then p.1 else if k = 3 then p.2.1 else if k = 6 then p.2.2
    else if k = 9 then a.1 else if k = 12 then a.2.1 else if k = 15 then a.2.2
    else fin_ 0⟩

/-- Measurement `z[i] = np.r_[positions[i], angles[i]]` (source line 134). -/
def measVec (p a : FV3) : NVec :=
  ⟨6, fun k =>
    if k = 0 then p.1 else if k = 1 then p.2.1 else if k = 2 then p.2.2
    else if k = 3 then a.1 else if k = 4 then a.2.1 else a.2.2⟩

/-- Loop body of the recursion (source lines 133–141), threading the
predicted pair `(x[i][i-1], P[i][i-1])` and producing
`(x[i+1][i], P[i+1][i])`.  The source's lag-indexed history tables are n+1
aliases of one shared row (modelled separately below); along this loop each
column is written immediately before the only reads of it, so the dataflow
is as threaded here.  `pinv` stands for `np.linalg.pinv`.  The covariance
update subtracts `K[i] @ H` (18×18) from `np.eye(9)`, exactly as the
source writes it. -/
def kfStep (F Q H R : NMat) (pinv : NMat → NMat)
    (positions angles : List FV3) (st : NVec × NMat) (i : Nat) :
    Except NpError (NVec × NMat) := do
  let z := measVec (positions.getD i default) (angles.getD i default)
  let S ← addM (← matmul (← matmul H st.2) H.transpose) R
  let K ← matmul (← matmul st.2 H.transpose) (pinv S)
  let x_upd ← addV st.1 (← matvec K (← subV z (← matvec H st.1)))
  let ImKH ← subM (eye 9) (← matmul K H)
  let P_upd ← addM (← matmul (← matmul ImKH st.2) ImKH.transpose)
                   (← matmul (← matmul K R) K.transpose)
  let x_pred ← matvec F x_upd
  let P_pred ← addM (← matmul (← matmul F P_upd) F.transpose) Q
  pure (x_pred, P_pred)

/-- Filter proper on the trimmed channels (source lines 92–144): model
matrices, initialization, first prediction, the recursion, and the final
`est_z = np.zeros()`, which raises TypeError because `np.zeros` requires a
shape argument; the body also ends with no return statement. -/
def kfRun (positions angles : List FV3) (dt P0 sq_sigma_a r : ℚ)
    (pinv : NMat → NMat) : Except NpError Unit := do
  let n := positions.length
  let F := matF dt
  let Q := matQ dt sq_sigma_a
  let H := matH
  let R := diagConst 6 r
  let x00 := initState (positions.getD 0 default) (angles.getD 0 default)
  let P00 := kron (eye 6) (fullM 3 3 P0)
  let x10 ← matvec F x00
  let P10 ← addM (← matmul (← matmul F P00) F.transpose) Q
  let _ ← (List.range' 1 (n - 1)).foldlM (kfStep F Q H R pinv positions angles) (x10, P10)
  Except.error .zerosMissingArg

/-- Shallow embedding of `kalman_filter(poses, dt, P0, sq_sigma_a, r)`
(source lines 47–144).  `asEuler` and `pinv` stand for the external scipy
and NumPy routines.  The result is `Except`: the source function has no
return statement, and every control path raises before reaching the end of
the body. -/
def kalman_filter (poses : List (Option Pose4)) (dt P0 sq_sigma_a r : ℚ)
    (asEuler : Pose4 → V3) (pinv : NMat → NMat) : Except NpError Unit := do
  let channels := toChannels asEuler poses
  let positions0 := channels.1
  let angles0 ← unwrapAngles channels.2
  -- np.array([]) of an empty track is 1-D, so positions[:, 0] raises
  if positions0.length = 0 then Except.error .indexError else do
  let idxs := presentIdx positions0
  let lo ← npMinL idxs
  let hi ← npMaxL idxs
  kfRun ((positions0.drop lo).take (hi + 1 - lo)) ((angles0.drop lo).take (hi + 1 - lo))
    dt P0 sq_sigma_a r pinv

/-- Indices of frames with a present pose, in frame order. -/
def posesPresentIdx (poses : List (Option Pose4)) : List Nat :=
  (List.range poses.length).filter (fun i => (poses.getD i none).isSome)

/-- Length of the trimmed span: last present index − first present index
+ 1, or 0 when no frame is present. -/
def trimmedLen (poses : List (Option Pose4)) : Nat :=
  match posesPresentIdx poses with
  | [] => 0
  | a :: rest => (rest.foldl Nat.max a) + 1 - (rest.foldl Nat.min a)

/-- A concrete pose for test inputs: the identity transform. -/
def idPose : Pose4 := fun i j => if i = j then 1 else 0

/-- A concrete stand-in instantiating the external Euler extraction in
closed test inputs (no settled behaviour depends on its values). -/
def zeroEuler : Pose4 → V3 := fun _ => ((0 : ℚ), (0 : ℚ), (0 : ℚ))

/-! ### Python list-of-lists aliasing (source lines 94–95)

The history tables `x = [[None] * n] * (n + 1)` and
`P = [[None] * n] * (n + 1)` are built by Python list repetition, whose
reference semantics is modelled here: an outer list holds references into a
heap of inner list objects, and repetition copies the reference, not the
object. -/

/-- A Python list of lists: outer slots are references into a heap of inner
list objects; distinct outer slots may reference the same object. -/
structure PyRows (α : Type) : Type where
  rows : List Nat
  heap : List (List α)

/-- Python's `[inner] * k`: one inner list object, `k` references to it. -/
def pyOuterRepeat {α : Type} (inner : List α) (k : Nat) : PyRows α :=
  ⟨List.replicate k 0, [inner]⟩

/-- The table `[[None] * n] * (n + 1)` of source lines 94–95 (`α` is
`NVec` for `x` and `NMat` for `P`; `none` models Python's `None`). -/
def historyTable (α : Type) (n : Nat) : PyRows (Option α) :=
  pyOuterRepeat (List.replicate n none) (n + 1)

/-- Assignment `x[a][i] = v`: mutates the inner object that row `a`
references; out-of-range rows are left unchanged. -/
def pyWrite {α : Type} (m : PyRows α) (a i : Nat) (v : α) : PyRows α :=
  match m.rows[a]? with
  | some ref => ⟨m.rows, m.heap.set ref ((m.heap.getD ref []).set i v)⟩
  | none => m

/-- Read `x[b][i]` (as an option, covering out-of-range access). -/
def pyRead {α : Type} (m : PyRows α) (b i : Nat) : Option α :=
  m.rows[b]?.bind fun ref => m.heap[ref]?.bind fun row => row[i]?

/-- Apply a sequence of writes `(row, column, value)` in order. -/
def pyWrites {α : Type} (m : PyRows α) : List (Nat × Nat × α) → PyRows α
  | [] => m
  | w :: ws => pyWrites (pyWrite m w.1 w.2.1 w.2.2) ws

/-- Structural shape of the history tables, preserved by writes: all `n+1`
outer slots reference the single inner object `0`, whose length stays `n`. -/
def tableShape (α : Type) (n : Nat) (m : PyRows (Option α)) : Prop :=
  m.rows = List.replicate (n + 1) 0 ∧ ∃ row, m.heap = [row] ∧ row.length = n

/-! ### Euler round-trip of the channel extraction (spec sections 4.1, 4.5)

Modelled from the spec: the extraction `.as_euler('XYZ')` used at source
line 66 lives in scipy, outside this repository, and the spec's
`PoseReconstructor` has no source at all; both directions are therefore
modelled from the spec's words over the reals — intrinsic X-Y-Z Euler
angles, with the third angle set to zero at gimbal lock — and the claim's
floating-point tolerance becomes exact equality. -/

noncomputable section

/-- Rotation by `a` about the x-axis. -/
def Rx (a : ℝ) : Matrix (Fin 3) (Fin 3) ℝ :=
  !![1, 0, 0; 0, Real.cos a, -Real.sin a; 0, Real.sin a, Real.cos a]

/-- Rotation by `b` about the y-axis. -/
def Ry (b : ℝ) : Matrix (Fin 3) (Fin 3) ℝ :=
  !![Real.cos b, 0, Real.sin b; 0, 1, 0; -Real.sin b, 0, Real.cos b]

/-- Rotation by `c` about the z-axis. -/
def Rz (c : ℝ) : Matrix (Fin 3) (Fin 3) ℝ :=
  !![Real.cos c, -Real.sin c, 0; Real.sin c, Real.cos c, 0; 0, 0, 1]

/-- Two-argument arctangent, expressed through the complex argument. -/
def atan2 (y x : ℝ) : ℝ := Complex.arg ⟨x, y⟩

/-- Modelled from the spec (4.1): extraction of intrinsic X-Y-Z Euler
angles from a rotation matrix, the mapping `as_euler('XYZ')` realizes:
`b = arcsin R₀₂`; away from gimbal lock `a = atan2(−R₁₂, R₂₂)` and
`c = atan2(−R₀₁, R₀₀)`; at gimbal lock (`R₀₂ = ±1`) the third angle is set
to zero and the first is read from the second row. -/
def eulerXYZOfMat (R : Matrix (Fin 3) (Fin 3) ℝ) : ℝ × ℝ × ℝ :=
  if R 0 2 = 1 ∨ R 0 2 = -1 then
    (atan2 (R 2 1) (R 1 1), Real.arcsin (R 0 2), 0)
  else
    (atan2 (-(R 1 2)) (R 2 2), Real.arcsin (R 0 2), atan2 (-(R 0 1)) (R 0 0))

/-- Modelled from the spec (4.5): reconstruction of the rotation from
intrinsic X-Y-Z Euler angles, the inverse mapping of the extraction. -/
def matOfEulerXYZ (e : ℝ × ℝ × ℝ) : Matrix (Fin 3) (Fin 3) ℝ :=
  Rx e.1 * Ry e.2.1 * Rz e.2.2

/-- Orthonormal rotation with determinant one (a valid rigid rotation). -/
def isRot (R : Matrix (Fin 3) (Fin 3) ℝ) : Prop :=
  R.transpose * R = 1 ∧ R.det = 1

/-- A rigid transform: rotation block and translation column. -/
structure Rigid : Type where
  rot : Matrix (Fin 3) (Fin 3) ℝ
  trans : Fin 3 → ℝ

/-- Channel extraction of one pose: position = translation column,
orientation = intrinsic X-Y-Z Euler angles of the rotation block. -/
def extractPose (T : Rigid) : (Fin 3 → ℝ) × (ℝ × ℝ × ℝ) :=
  (T.trans, eulerXYZOfMat T.rot)

/-- Modelled from the spec (4.5): pose reconstruction from the filtered
(position, orientation) channels. -/
def reconstructPose (pe : (Fin 3 → ℝ) × (ℝ × ℝ × ℝ)) : Rigid :=
  ⟨matOfEulerXYZ pe.2, pe.1⟩

end

/-! ### Lemmas about the unwrapping loop -/

theorem unwrapDimFrom_length (l : List ℚ) : ∀ prev, (unwrapDimFrom prev l).length = l.length := by
  induction l with
  | nil => intro prev; rfl
  | cons c rest ih => intro prev; simp [unwrapDimFrom, ih]

theorem unwrapDimFrom_getD_rec (l : List ℚ) :
    ∀ (prev : ℚ) (i : Nat), i + 1 < l.length →
      (unwrapDimFrom prev l).getD (i + 1) 0 =
        unwrapStep ((unwrapDimFrom prev l).getD i 0) (l.getD (i + 1) 0) := by
  induction l with
  | nil => intro prev i h; simp at h
  | cons c rest ih =>
    intro prev i h
    match i with
    | 0 =>
      match rest, h with
      | c2 :: rest2, _ => simp [unwrapDimFrom]
    | Nat.succ j =>
      have h2 : j + 1 < rest.length := by
        simpa using Nat.lt_of_succ_lt_succ h
      simpa [unwrapDimFrom] using ih (unwrapStep prev c) j h2

theorem unwrapFrom_components (l : List V3) :
    ∀ prev, (unwrapFrom prev l).map (fun v => v.1) = unwrapDimFrom prev.1 (l.map (fun v => v.1))
      ∧ (unwrapFrom prev l).map (fun v => v.2.1) = unwrapDimFrom prev.2.1 (l.map (fun v => v.2.1))
      ∧ (unwrapFrom prev l).map (fun v => v.2.2) = unwrapDimFrom prev.2.2 (l.map (fun v => v.2.2)) := by
  induction l with
  | nil => intro prev; exact ⟨rfl, rfl, rfl⟩
  | cons c rest ih =>
    intro prev
    refine ⟨?_, ?_, ?_⟩
    · simpa [unwrapFrom, unwrapStepV3, unwrapDimFrom] using (ih (unwrapStepV3 prev c)).1
    · simpa [unwrapFrom, unwrapStepV3, unwrapDimFrom] using (ih (unwrapStepV3 prev c)).2.1
    · simpa [unwrapFrom, unwrapStepV3, unwrapDimFrom] using (ih (unwrapStepV3 prev c)).2.2

/-- Dimension-wise reading of the three-dimensional loop: the rows are
corrected one scalar dimension at a time, each dimension independently. -/
theorem unwrap3_components (l : List V3) :
    (unwrap3 l).map (fun v => v.1) = unwrapDim (l.map (fun v => v.1))
      ∧ (unwrap3 l).map (fun v => v.2.1) = unwrapDim (l.map (fun v => v.2.1))
      ∧ (unwrap3 l).map (fun v => v.2.2) = unwrapDim (l.map (fun v => v.2.2)) := by
  match l with
  | [] => exact ⟨rfl, rfl, rfl⟩
  | a :: rest =>
    refine ⟨?_, ?_, ?_⟩ <;>
      simp [unwrap3, unwrapDim, (unwrapFrom_components rest a).1,
        (unwrapFrom_components rest a).2.1, (unwrapFrom_components rest a).2.2]

/-- C6 (counterexample): on the single-dimension present-sample sequence
`[0, 6, 12]` the source's loop corrects each sample only once (giving
`[0, 6 − 2π, 12 − 2π]`), while the claim's words — shift the current AND all
subsequent samples of the remaining run — give `[0, 6 − 2π, 12 − 4π]`. -/
theorem unwrapDim_ne_spec_words :
    unwrapDim [0, 6, 12] = [0, 6 - 2 * npPi, 12 - 2 * npPi]
      ∧ specUnwrapDim [0, 6, 12] = [0, 6 - 2 * npPi, 12 - 4 * npPi]
      ∧ unwrapDim [0, 6, 12] ≠ specUnwrapDim [0, 6, 12] := by
  have h1 : unwrapDim [0, 6, 12] = [0, 6 - 2 * npPi, 12 - 2 * npPi] := by
    norm_num [unwrapDim, unwrapDimFrom, unwrapStep, npPi]
  have h2 : specUnwrapDim [0, 6, 12] = [0, 6 - 2 * npPi, 12 - 4 * npPi] := by
    norm_num [specUnwrapDim, specUnwrapDimFrom, npPi]
  refine ⟨h1, h2, ?_⟩
  rw [h1, h2]
  norm_num [npPi]

/-- C6 (amended): the unwrapper works on each scalar dimension
independently; walking the present samples in order, whenever the difference
between the raw current sample and the CORRECTED previous sample exceeds
`1.8π` (resp. is below `−1.8π`) it subtracts (resp. adds) `2π` to the
current sample ONLY — subsequent samples are affected only through the
chained comparisons, which re-trigger when their own differences again cross
the threshold. -/
theorem unwrap_per_dim_single_shift (l3 : List V3) (l : List ℚ) (i : Nat)
    (h : i + 1 < l.length) :
    ((unwrap3 l3).map (fun v => v.1) = unwrapDim (l3.map (fun v => v.1))
      ∧ (unwrap3 l3).map (fun v => v.2.1) = unwrapDim (l3.map (fun v => v.2.1))
      ∧ (unwrap3 l3).map (fun v => v.2.2) = unwrapDim (l3.map (fun v => v.2.2)))
    ∧ (unwrapDim l).length = l.length
    ∧ (unwrapDim l).getD 0 0 = l.getD 0 0
    ∧ (unwrapDim l).getD (i + 1) 0 =
        unwrapStep ((unwrapDim l).getD i 0) (l.getD (i + 1) 0) := by
  refine ⟨unwrap3_components l3, ?_, ?_, ?_⟩
  · match l with
    | [] => rfl
    | a :: rest => simp [unwrapDim, unwrapDimFrom_length]
  · match l, h with
    | a :: rest, _ => rfl
  · match l, h with
    | a :: rest, h =>
      match i with
      | 0 =>
        match rest, h with
        | c2 :: rest2, _ => simp [unwrapDim, unwrapDimFrom]
      | Nat.succ j =>
        have h2 : j + 1 < rest.length := by
          simpa using Nat.lt_of_succ_lt_succ h
        simpa [unwrapDim] using unwrapDimFrom_getD_rec rest a j h2

/-- Witness for `unwrap_per_dim_single_shift` at a concrete input. -/
theorem unwrap_per_dim_single_shift_witness :
    1 + 1 < ([0, 6, 12] : List ℚ).length
    ∧ (((unwrap3 [((1:ℚ), (2:ℚ), (3:ℚ))]).map (fun v => v.1)
          = unwrapDim ([((1:ℚ), (2:ℚ), (3:ℚ))].map (fun v => v.1))
        ∧ (unwrap3 [((1:ℚ), (2:ℚ), (3:ℚ))]).map (fun v => v.2.1)
          = unwrapDim ([((1:ℚ), (2:ℚ), (3:ℚ))].map (fun v => v.2.1))
        ∧ (unwrap3 [((1:ℚ), (2:ℚ), (3:ℚ))]).map (fun v => v.2.2)
          = unwrapDim ([((1:ℚ), (2:ℚ), (3:ℚ))].map (fun v => v.2.2)))
      ∧ (unwrapDim [0, 6, 12]).length = ([0, 6, 12] : List ℚ).length
      ∧ (unwrapDim [0, 6, 12]).getD 0 0 = ([0, 6, 12] : List ℚ).getD 0 0
      ∧ (unwrapDim [0, 6, 12]).getD (1 + 1) 0 =
          unwrapStep ((unwrapDim [0, 6, 12]).getD 1 0) (([0, 6, 12] : List ℚ).getD (1 + 1) 0)) :=
  ⟨by decide, unwrap_per_dim_single_shift [((1:ℚ), (2:ℚ), (3:ℚ))] [0, 6, 12] 1 (by decide)⟩

/-- C7: the single-dimension angle sequence `[3.0, 3.1, −3.1, −3.0]`, which
crosses the ±π wrap boundary, unwraps to the strictly increasing sequence
`[3.0, 3.1, −3.1 + 2π, −3.0 + 2π] = [3.0, 3.1, 3.18…, 3.28…]`. -/
theorem unwrap_pi_crossing_scenario :
    unwrapDim [3, 31/10, -(31/10), -3] =
        [3, 31/10, -(31/10) + 2 * npPi, -3 + 2 * npPi]
      ∧ List.Chain' (fun a b => a < b) (unwrapDim [3, 31/10, -(31/10), -3])
      ∧ 159/50 < -(31/10) + 2 * npPi ∧ -(31/10) + 2 * npPi < 319/100
      ∧ 82/25 < -3 + 2 * npPi ∧ -3 + 2 * npPi < 329/100 := by
  have h1 : unwrapDim [3, 31/10, -(31/10), -3] =
      [3, 31/10, -(31/10) + 2 * npPi, -3 + 2 * npPi] := by
    norm_num [unwrapDim, unwrapDimFrom, unwrapStep, npPi]
  refine ⟨h1, ?_, ?_, ?_, ?_, ?_⟩
  · rw [h1]
    norm_num [List.chain'_cons, npPi]
  all_goals norm_num [npPi]

/-! ### Lemmas about the Kalman recursion's unconditional failure -/

theorem ok_bind {ε α β : Type} (a : α) (f : α → Except ε β) :
    (Except.ok a >>= f) = f a := rfl

theorem error_bind {ε α β : Type} (e : ε) (f : α → Except ε β) :
    ((Except.error e : Except ε α) >>= f) = Except.error e := rfl

/-- Loop body failure: whatever the values and whatever the frame index,
the covariance update `np.eye(9) - K[i] @ H` broadcasts a 9×9 against an
18×18 array and raises. -/
theorem kfStep_error {F Q : NMat} {r : ℚ} {pinv : NMat → NMat}
    {positions angles : List FV3} {x : NVec} {P : NMat} {i : Nat}
    (hp1 : ∀ M, (pinv M).rows = M.cols) (hp2 : ∀ M, (pinv M).cols = M.rows)
    (hx : x.dim = 18) (hr : P.rows = 18) (hc : P.cols = 18) :
    kfStep F Q matH (diagConst 6 r) pinv positions angles (x, P) i
      = .error .broadcastShapeMismatch := by
  simp [kfStep, matmul, matvec, addM, subM, addV, subV, ewise, vwise, bdim, bidx,
    NMat.transpose, matH, diagConst, measVec, eye, hx, hr, hc, hp1, hp2,
    ok_bind, error_bind]

/-- Run failure: with at least one trimmed frame the filter raises — the
loop body fails at the first update when there are two or more frames, and
the final `np.zeros()` fails when the loop is empty. -/
theorem kfRun_error (positions angles : List FV3) (dt P0 sq_sigma_a r : ℚ)
    (pinv : NMat → NMat)
    (hp1 : ∀ M, (pinv M).rows = M.cols) (hp2 : ∀ M, (pinv M).cols = M.rows) :
    (positions.length = 1 →
      kfRun positions angles dt P0 sq_sigma_a r pinv = .error .zerosMissingArg)
    ∧ (2 ≤ positions.length →
      kfRun positions angles dt P0 sq_sigma_a r pinv = .error .broadcastShapeMismatch) := by
  constructor
  · intro h1
    simp [kfRun, h1, matvec, matmul, addM, ewise, bdim, matF, matF3, matQ, matQ3,
      scaleM, kron, eye, fullM, ofRows, initState, NMat.transpose, ok_bind, error_bind,
      List.foldlM]
  · intro h2
    obtain ⟨m, hm⟩ : ∃ m, positions.length - 1 = m + 1 := ⟨positions.length - 2, by omega⟩
    simp only [kfRun, hm, List.range'_succ, List.foldlM_cons]
    simp [matvec, matmul, addM, ewise, bdim, matF, matF3, matQ, matQ3,
      scaleM, kron, eye, fullM, ofRows, initState, NMat.transpose, ok_bind, error_bind,
      kfStep_error hp1 hp2]

/-! ### Lemmas about the channel pipeline before the recursion -/

theorem toChannels_fst_length (e : Pose4 → V3) (poses : List (Option Pose4)) :
    (toChannels e poses).1.length = poses.length := by
  simp [toChannels]

theorem notNanFlat_angles_mod3 (e : Pose4 → V3) (poses : List (Option Pose4)) :
    (notNanFlat (toChannels e poses).2).length % 3 = 0 := by
  induction poses with
  | nil => rfl
  | cons p rest ih =>
    rcases p with _ | pose
    · simpa [toChannels, notNanFlat, Fl.toOpt, nanF] using ih
    · simp only [toChannels, notNanFlat, List.map_cons, List.flatMap_cons] at ih ⊢
      simp only [List.length_append]
      have h3 : ([fin_ (e pose).1, fin_ (e pose).2.1,
          fin_ (e pose).2.2].filterMap Fl.toOpt).length = 3 := rfl
      omega

theorem unwrapAngles_ok (e : Pose4 → V3) (poses : List (Option Pose4)) :
    unwrapAngles (toChannels e poses).2
      = .ok (writeBackFlat (toChannels e poses).2
          (flat3 (unwrap3 (regroup3 (notNanFlat (toChannels e poses).2))))) := by
  simp [unwrapAngles, reshapeRows3, notNanFlat_angles_mod3, ok_bind]

theorem presentIdx_toChannels (e : Pose4 → V3) (poses : List (Option Pose4)) :
    presentIdx (toChannels e poses).1 = posesPresentIdx poses := by
  unfold presentIdx posesPresentIdx
  rw [toChannels_fst_length]
  refine List.filter_congr ?_
  intro i hi
  rw [List.mem_range] at hi
  rcases hpi : poses[i] with _ | pose <;>
    simp [List.getD_eq_getElem?_getD, toChannels, List.getElem?_map,
      List.getElem?_eq_getElem hi, hpi, Fl.isnan, nanF, fin_]

theorem posesPresentIdx_lt (poses : List (Option Pose4)) :
    ∀ i ∈ posesPresentIdx poses, i < poses.length := by
  intro i hi
  unfold posesPresentIdx at hi
  exact List.mem_range.mp (List.mem_of_mem_filter hi)

theorem foldl_min_le_init (l : List Nat) : ∀ a : Nat, l.foldl Nat.min a ≤ a := by
  induction l with
  | nil => intro a; exact Nat.le_refl a
  | cons x rest ih => intro a; exact Nat.le_trans (ih (Nat.min a x)) (Nat.min_le_left a x)

theorem le_foldl_max_init (l : List Nat) : ∀ a : Nat, a ≤ l.foldl Nat.max a := by
  induction l with
  | nil => intro a; exact Nat.le_refl a
  | cons x rest ih => intro a; exact Nat.le_trans (Nat.le_max_left a x) (ih (Nat.max a x))

theorem foldl_max_lt (l : List Nat) :
    ∀ a n : Nat, a < n → (∀ x ∈ l, x < n) → l.foldl Nat.max a < n := by
  induction l with
  | nil => intro a n ha _; exact ha
  | cons x rest ih =>
    intro a n ha hl
    refine ih _ n ?_ (fun y hy => hl y (List.mem_cons_of_mem x hy))
    exact Nat.max_lt.mpr ⟨ha, hl x (List.mem_cons_self x rest)⟩

/-- Whenever some frame is present, the call reaches the filter proper on
trimmed channels whose length is the trimmed-span length. -/
theorem kalman_filter_reaches_kfRun (poses : List (Option Pose4))
    (dt P0 sq_sigma_a r : ℚ) (asEuler : Pose4 → V3) (pinv : NMat → NMat)
    (a : Nat) (rest : List Nat) (hidx : posesPresentIdx poses = a :: rest) :
    ∃ positionsT anglesT : List FV3,
      kalman_filter poses dt P0 sq_sigma_a r asEuler pinv
        = kfRun positionsT anglesT dt P0 sq_sigma_a r pinv
      ∧ positionsT.length = trimmedLen poses
      ∧ 1 ≤ trimmedLen poses := by
  have hlt : ∀ i ∈ posesPresentIdx poses, i < poses.length := posesPresentIdx_lt poses
  rw [hidx] at hlt
  have ha : a < poses.length := hlt a (List.mem_cons_self a rest)
  have hhi : rest.foldl Nat.max a < poses.length :=
    foldl_max_lt rest a _ ha (fun x hx => hlt x (List.mem_cons_of_mem a hx))
  have hlo : rest.foldl Nat.min a ≤ rest.foldl Nat.max a :=
    Nat.le_trans (foldl_min_le_init rest a) (le_foldl_max_init rest a)
  have hlen0 : ¬ ((toChannels asEuler poses).1.length = 0) := by
    rw [toChannels_fst_length]
    omega
  have htlen : trimmedLen poses
      = rest.foldl Nat.max a + 1 - rest.foldl Nat.min a := by
    unfold trimmedLen
    rw [hidx]
  refine ⟨((toChannels asEuler poses).1.drop (rest.foldl Nat.min a)).take
      (rest.foldl Nat.max a + 1 - rest.foldl Nat.min a),
    ((writeBackFlat (toChannels asEuler poses).2
        (flat3 (unwrap3 (regroup3 (notNanFlat (toChannels asEuler poses).2))))).drop
          (rest.foldl Nat.min a)).take
      (rest.foldl Nat.max a + 1 - rest.foldl Nat.min a), ?_, ?_, ?_⟩
  · simp only [kalman_filter, unwrapAngles_ok asEuler poses, ok_bind, if_neg hlen0,
      presentIdx_toChannels, hidx, npMinL, npMaxL]
  · rw [List.length_take, List.length_drop, toChannels_fst_length, htlen]
    omega
  · omega

/-- Behaviour on the empty track: `positions` is a 1-D empty array and
`positions[:, 0]` raises IndexError. -/
theorem kalman_filter_empty (dt P0 sq_sigma_a r : ℚ) (asEuler : Pose4 → V3)
    (pinv : NMat → NMat) :
    kalman_filter [] dt P0 sq_sigma_a r asEuler pinv = .error .indexError := rfl

/-- Behaviour when no frame is present: `np.min` reduces an empty index
array and raises ValueError. -/
theorem kalman_filter_no_present (poses : List (Option Pose4))
    (dt P0 sq_sigma_a r : ℚ) (asEuler : Pose4 → V3) (pinv : NMat → NMat)
    (hne : poses ≠ []) (hempty : posesPresentIdx poses = []) :
    kalman_filter poses dt P0 sq_sigma_a r asEuler pinv = .error .zeroSizeReduction := by
  have hlen0 : ¬ ((toChannels asEuler poses).1.length = 0) := by
    rw [toChannels_fst_length]
    intro h
    exact hne (List.length_eq_zero.mp h)
  simp only [kalman_filter, unwrapAngles_ok asEuler poses, ok_bind, if_neg hlen0,
    presentIdx_toChannels, hempty, npMinL, error_bind]

/-- Behaviour on a one-frame trimmed span: the recursion loop is empty and
`est_z = np.zeros()` raises TypeError. -/
theorem kalman_filter_span1 (poses : List (Option Pose4)) (dt P0 sq_sigma_a r : ℚ)
    (asEuler : Pose4 → V3) (pinv : NMat → NMat)
    (hp1 : ∀ M, (pinv M).rows = M.cols) (hp2 : ∀ M, (pinv M).cols = M.rows)
    (h1 : trimmedLen poses = 1) :
    kalman_filter poses dt P0 sq_sigma_a r asEuler pinv = .error .zerosMissingArg := by
  rcases hidx : posesPresentIdx poses with _ | ⟨a, rest⟩
  · exfalso
    unfold trimmedLen at h1
    rw [hidx] at h1
    simp at h1
  · obtain ⟨pT, aT, hkf, hlen, _⟩ :=
      kalman_filter_reaches_kfRun poses dt P0 sq_sigma_a r asEuler pinv a rest hidx
    rw [hkf]
    exact (kfRun_error pT aT dt P0 sq_sigma_a r pinv hp1 hp2).1 (by rw [hlen, h1])

/-- Behaviour on a trimmed span of two or more frames: the first update's
covariance line broadcasts `np.eye(9)` against the 18×18 `K[i] @ H` and
raises ValueError. -/
theorem kalman_filter_span2 (poses : List (Option Pose4)) (dt P0 sq_sigma_a r : ℚ)
    (asEuler : Pose4 → V3) (pinv : NMat → NMat)
    (hp1 : ∀ M, (pinv M).rows = M.cols) (hp2 : ∀ M, (pinv M).cols = M.rows)
    (h2 : 2 ≤ trimmedLen poses) :
    kalman_filter poses dt P0 sq_sigma_a r asEuler pinv = .error .broadcastShapeMismatch := by
  rcases hidx : posesPresentIdx poses with _ | ⟨a, rest⟩
  · exfalso
    unfold trimmedLen at h2
    rw [hidx] at h2
    simp at h2
  · obtain ⟨pT, aT, hkf, hlen, _⟩ :=
      kalman_filter_reaches_kfRun poses dt P0 sq_sigma_a r asEuler pinv a rest hidx
    rw [hkf]
    exact (kfRun_error pT aT dt P0 sq_sigma_a r pinv hp1 hp2).2 (by rw [hlen]; exact h2)

theorem posesPresentIdx_nil_of_all_none (poses : List (Option Pose4))
    (h : ∀ p ∈ poses, p = none) : posesPresentIdx poses = [] := by
  unfold posesPresentIdx
  rw [List.filter_eq_nil_iff]
  intro i hi
  rw [List.mem_range] at hi
  rw [List.getD_eq_getElem?_getD, List.getElem?_eq_getElem hi]
  have := h poses[i] (poses.getElem_mem hi)
  rw [this]
  simp

/-! ### Claim theorems about the recursion's failure behaviour -/

/-- C3: for every input pose list with a non-empty trimmed span, any
configuration, and any shape-correct pseudoinverse, the call raises and
never returns a filtered trajectory: with at least two trimmed frames the
covariance update subtracts the 18×18 `K[i] @ H` from the 9×9 `np.eye(9)`
and raises the broadcasting ValueError; with exactly one trimmed frame the
loop is skipped and `np.zeros()` raises TypeError; no run returns
normally (the source also has no return statement). -/
theorem kalman_filter_always_raises (poses : List (Option Pose4))
    (dt P0 sq_sigma_a r : ℚ) (asEuler : Pose4 → V3) (pinv : NMat → NMat)
    (hp1 : ∀ M, (pinv M).rows = M.cols) (hp2 : ∀ M, (pinv M).cols = M.rows)
    (hpres : 1 ≤ trimmedLen poses) :
    (2 ≤ trimmedLen poses →
      kalman_filter poses dt P0 sq_sigma_a r asEuler pinv = .error .broadcastShapeMismatch)
    ∧ (trimmedLen poses = 1 →
      kalman_filter poses dt P0 sq_sigma_a r asEuler pinv = .error .zerosMissingArg)
    ∧ ∀ u : Unit, kalman_filter poses dt P0 sq_sigma_a r asEuler pinv ≠ .ok u := by
  refine ⟨kalman_filter_span2 poses dt P0 sq_sigma_a r asEuler pinv hp1 hp2,
    kalman_filter_span1 poses dt P0 sq_sigma_a r asEuler pinv hp1 hp2, ?_⟩
  intro u
  rcases Nat.lt_or_ge (trimmedLen poses) 2 with hlt | hge
  · have h1 : trimmedLen poses = 1 := by omega
    rw [kalman_filter_span1 poses dt P0 sq_sigma_a r asEuler pinv hp1 hp2 h1]
    simp
  · rw [kalman_filter_span2 poses dt P0 sq_sigma_a r asEuler pinv hp1 hp2 hge]
    simp

/-- Witness for `kalman_filter_always_raises` on a concrete two-frame
track. -/
theorem kalman_filter_always_raises_witness :
    (∀ M : NMat, M.transpose.rows = M.cols)
    ∧ (∀ M : NMat, M.transpose.cols = M.rows)
    ∧ 1 ≤ trimmedLen [some idPose, some idPose]
    ∧ ((2 ≤ trimmedLen [some idPose, some idPose] →
        kalman_filter [some idPose, some idPose] (1/30) 500 100 1 zeroEuler NMat.transpose
          = .error .broadcastShapeMismatch)
      ∧ (trimmedLen [some idPose, some idPose] = 1 →
        kalman_filter [some idPose, some idPose] (1/30) 500 100 1 zeroEuler NMat.transpose
          = .error .zerosMissingArg)
      ∧ ∀ u : Unit,
        kalman_filter [some idPose, some idPose] (1/30) 500 100 1 zeroEuler NMat.transpose
          ≠ .ok u) :=
  ⟨fun _ => rfl, fun _ => rfl, by decide,
    kalman_filter_always_raises [some idPose, some idPose] (1/30) 500 100 1 zeroEuler
      NMat.transpose (fun _ => rfl) (fun _ => rfl) (by decide)⟩

/-- C1 (code evaluation): on the trimmed track `[pose, missing, pose]`,
whose interior frame is missing, the source does not skip the missing
frame's update and produces no NaN-free output; it raises the broadcasting
ValueError at the very first update and returns nothing at all. -/
theorem kalman_filter_interior_missing_raises :
    kalman_filter [some idPose, none, some idPose] (1/30) 500 100 1 zeroEuler NMat.transpose
      = .error .broadcastShapeMismatch :=
  kalman_filter_span2 [some idPose, none, some idPose] (1/30) 500 100 1 zeroEuler
    NMat.transpose (fun _ => rfl) (fun _ => rfl) (by decide)

/-- C2 (code evaluation): on a fully present two-frame track with the
default configuration, the accepted covariance is never produced: the
update line subtracts the 18×18 `K[i] @ H` from `np.eye(9)` — not from the
18×18 identity the Joseph form requires — and NumPy raises the
broadcasting ValueError. -/
theorem kalman_filter_joseph_update_raises :
    kalman_filter [some idPose, some idPose] (1/30) 500 100 1 zeroEuler NMat.transpose
      = .error .broadcastShapeMismatch :=
  kalman_filter_span2 [some idPose, some idPose] (1/30) 500 100 1 zeroEuler
    NMat.transpose (fun _ => rfl) (fun _ => rfl) (by decide)

/-- C4 (code evaluation): on a fully present three-frame track with a valid
configuration the run raises at the first update, so there is no covariance
"after every predict/update step" whose symmetry or positive
semidefiniteness could be maintained. -/
theorem kalman_filter_no_updated_covariance :
    kalman_filter [some idPose, some idPose, some idPose] (1/30) 500 100 1 zeroEuler
      NMat.transpose = .error .broadcastShapeMismatch :=
  kalman_filter_span2 [some idPose, some idPose, some idPose] (1/30) 500 100 1 zeroEuler
    NMat.transpose (fun _ => rfl) (fun _ => rfl) (by decide)

/-- C5 (counterexample): the all-missing track of length 10 makes the call
fail with the ValueError of `np.min` over an empty index array
(zero-size reduction) — not with the spec's `EmptyTrackError`. -/
theorem kalman_filter_all_missing_not_empty_track_error :
    kalman_filter (List.replicate 10 none) (1/30) 500 100 1 zeroEuler NMat.transpose
      = .error .zeroSizeReduction
    ∧ NpError.zeroSizeReduction ≠ NpError.emptyTrackError := by
  constructor
  · refine kalman_filter_no_present _ _ _ _ _ _ _ ?_ (by decide)
    simp
  · decide

/-- C5 (amended): every non-empty track in which no frame is present fails
(rather than silently returning an empty output), but with the generic
ValueError of reducing an empty array with `np.min`, since the source
defines no `EmptyTrackError`. -/
theorem kalman_filter_all_missing_raises (poses : List (Option Pose4))
    (dt P0 sq_sigma_a r : ℚ) (asEuler : Pose4 → V3) (pinv : NMat → NMat)
    (hne : poses ≠ []) (hall : ∀ p ∈ poses, p = none) :
    kalman_filter poses dt P0 sq_sigma_a r asEuler pinv = .error .zeroSizeReduction :=
  kalman_filter_no_present poses dt P0 sq_sigma_a r asEuler pinv hne
    (posesPresentIdx_nil_of_all_none poses hall)

/-- Witness for `kalman_filter_all_missing_raises` on the length-10
all-missing track. -/
theorem kalman_filter_all_missing_raises_witness :
    (List.replicate 10 (none : Option Pose4)) ≠ []
    ∧ (∀ p ∈ List.replicate 10 (none : Option Pose4), p = none)
    ∧ kalman_filter (List.replicate 10 none) (1/30) 500 100 1 zeroEuler NMat.transpose
        = .error .zeroSizeReduction :=
  ⟨by simp, fun p hp => List.eq_of_mem_replicate hp,
    kalman_filter_all_missing_raises (List.replicate 10 none) (1/30) 500 100 1 zeroEuler
      NMat.transpose (by simp) (fun p hp => List.eq_of_mem_replicate hp)⟩

/-- C9 (counterexample): with the invalid configuration `dt = −1` (and all
variances negative) on a present two-frame track, the call does not raise
`InvalidConfigurationError` — no configuration validation exists; it
proceeds into filtering and fails with the unconditional broadcasting
ValueError. -/
theorem kalman_filter_invalid_config_not_config_error :
    kalman_filter [some idPose, some idPose] (-1) (-5) (-2) (-3) zeroEuler NMat.transpose
      = .error .broadcastShapeMismatch
    ∧ NpError.broadcastShapeMismatch ≠ NpError.invalidConfigurationError := by
  constructor
  · exact kalman_filter_span2 [some idPose, some idPose] (-1) (-5) (-2) (-3) zeroEuler
      NMat.transpose (fun _ => rfl) (fun _ => rfl) (by decide)
  · decide

/-- C9 (amended): the source performs no configuration validation: for
`dt ≤ 0` or any negative variance it never raises
`InvalidConfigurationError` on any track — it fails instead with the same
NumPy errors as a valid configuration (IndexError, zero-size reduction, the
broadcast ValueError, or the `np.zeros()` TypeError). -/
theorem kalman_filter_never_invalid_config (poses : List (Option Pose4))
    (dt P0 sq_sigma_a r : ℚ) (asEuler : Pose4 → V3) (pinv : NMat → NMat)
    (hp1 : ∀ M, (pinv M).rows = M.cols) (hp2 : ∀ M, (pinv M).cols = M.rows)
    (hbad : dt ≤ 0 ∨ P0 < 0 ∨ sq_sigma_a < 0 ∨ r < 0) :
    kalman_filter poses dt P0 sq_sigma_a r asEuler pinv
      ≠ .error .invalidConfigurationError := by
  by_cases hnil : poses = []
  · rw [hnil, kalman_filter_empty]
    simp
  · rcases hidx : posesPresentIdx poses with _ | ⟨a, rest⟩
    · rw [kalman_filter_no_present poses dt P0 sq_sigma_a r asEuler pinv hnil hidx]
      simp
    · obtain ⟨pT, aT, hkf, hlen, hge⟩ :=
        kalman_filter_reaches_kfRun poses dt P0 sq_sigma_a r asEuler pinv a rest hidx
      rcases Nat.lt_or_ge (trimmedLen poses) 2 with hlt | hge2
      · rw [kalman_filter_span1 poses dt P0 sq_sigma_a r asEuler pinv hp1 hp2 (by omega)]
        simp
      · rw [kalman_filter_span2 poses dt P0 sq_sigma_a r asEuler pinv hp1 hp2 hge2]
        simp

/-- Witness for `kalman_filter_never_invalid_config` at `dt = −1` on a
concrete track. -/
theorem kalman_filter_never_invalid_config_witness :
    (∀ M : NMat, M.transpose.rows = M.cols)
    ∧ (∀ M : NMat, M.transpose.cols = M.rows)
    ∧ ((-1 : ℚ) ≤ 0 ∨ (500 : ℚ) < 0 ∨ (100 : ℚ) < 0 ∨ (1 : ℚ) < 0)
    ∧ kalman_filter [some idPose, some idPose] (-1) 500 100 1 zeroEuler NMat.transpose
        ≠ .error .invalidConfigurationError :=
  ⟨fun _ => rfl, fun _ => rfl, Or.inl (by norm_num),
    kalman_filter_never_invalid_config [some idPose, some idPose] (-1) 500 100 1 zeroEuler
      NMat.transpose (fun _ => rfl) (fun _ => rfl) (Or.inl (by norm_num))⟩

/-! ### The shared-row history tables -/

theorem tableShape_init (α : Type) (n : Nat) : tableShape α n (historyTable α n) :=
  ⟨rfl, List.replicate n none, rfl, List.length_replicate n none⟩

theorem tableShape_write (α : Type) (n : Nat) (m : PyRows (Option α)) (a i : Nat)
    (v : Option α) (h : tableShape α n m) : tableShape α n (pyWrite m a i v) := by
  obtain ⟨hrows, row, hheap, hlen⟩ := h
  by_cases ha : a < n + 1
  · have hget : m.rows[a]? = some 0 := by
      rw [hrows, List.getElem?_replicate, if_pos ha]
    unfold pyWrite
    simp only [hget]
    refine ⟨hrows, row.set i v, ?_, ?_⟩
    · rw [hheap]
      rfl
    · rw [List.length_set]
      exact hlen
  · have hget : m.rows[a]? = none := by
      rw [hrows, List.getElem?_replicate, if_neg ha]
    unfold pyWrite
    simp only [hget]
    exact ⟨hrows, row, hheap, hlen⟩

theorem tableShape_writes (α : Type) (n : Nat) (ws : List (Nat × Nat × Option α)) :
    ∀ m : PyRows (Option α), tableShape α n m → tableShape α n (pyWrites m ws) := by
  induction ws with
  | nil => intro m h; exact h
  | cons w rest ih =>
    intro m h
    exact ih _ (tableShape_write α n m w.1 w.2.1 w.2.2 h)

/-- C10: the history tables `x` and `P`, each built as
`[[None] * n] * (n + 1)`, consist of `n + 1` references to one shared row
object: every two in-range outer indices reference the same cell for each
column, so a write through any row — after any earlier writes — is
observed when the same column is read through any other row; in
particular the recursion's reads of `x[i][i-1]` and `P[i][i-1]` see the
most recent write to column `i-1` regardless of the row it was written
through. -/
theorem history_table_rows_alias (α : Type) (n a b k : Nat) (w : Option α)
    (pre : List (Nat × Nat × Option α))
    (ha : a ≤ n) (hb : b ≤ n) (hk : k < n) :
    (historyTable α n).rows[a]? = some 0
    ∧ (historyTable α n).rows[b]? = some 0
    ∧ pyRead (pyWrite (pyWrites (historyTable α n) pre) a k w) b k = some w := by
  obtain ⟨hrows, row, hheap, hlen⟩ :=
    tableShape_writes α n pre (historyTable α n) (tableShape_init α n)
  refine ⟨?_, ?_, ?_⟩
  · rw [show (historyTable α n).rows = List.replicate (n + 1) 0 from rfl,
      List.getElem?_replicate, if_pos (by omega)]
  · rw [show (historyTable α n).rows = List.replicate (n + 1) 0 from rfl,
      List.getElem?_replicate, if_pos (by omega)]
  · have hgeta : (pyWrites (historyTable α n) pre).rows[a]? = some 0 := by
      rw [hrows, List.getElem?_replicate, if_pos (by omega : a < n + 1)]
    have hk' : k < row.length := by omega
    unfold pyWrite pyRead
    simp only [hgeta, hheap, hrows, List.getElem?_replicate,
      if_pos (by omega : a < n + 1), if_pos (by omega : b < n + 1),
      List.getD_cons_zero, List.set_cons_zero,
      List.getElem?_cons_zero, Option.some_bind, List.getElem?_set_self hk']

/-- Witness for `history_table_rows_alias` on a concrete table. -/
theorem history_table_rows_alias_witness :
    2 ≤ 5 ∧ 4 ≤ 5 ∧ 1 < 5
    ∧ ((historyTable NVec 5).rows[2]? = some 0
      ∧ (historyTable NVec 5).rows[4]? = some 0
      ∧ pyRead (pyWrite (pyWrites (historyTable NVec 5) [(0, 0, none)]) 2 1
          (some ⟨18, fun _ => fin_ 0⟩)) 4 1 = some (some ⟨18, fun _ => fin_ 0⟩)) :=
  ⟨by decide, by decide, by decide,
    history_table_rows_alias NVec 5 2 4 1 (some ⟨18, fun _ => fin_ 0⟩) [(0, 0, none)]
      (by decide) (by decide) (by decide)⟩

/-! ### The Euler round-trip -/

theorem rot_row_norm (R : Matrix (Fin 3) (Fin 3) ℝ) (hrr : R * R.transpose = 1)
    (i : Fin 3) : R i 0 ^ 2 + R i 1 ^ 2 + R i 2 ^ 2 = 1 := by
  have h := congrFun (congrFun hrr i) i
  simpa [Matrix.mul_apply, Fin.sum_univ_three, Matrix.transpose_apply,
    Matrix.one_apply, sq] using h

theorem rot_col_norm (R : Matrix (Fin 3) (Fin 3) ℝ) (ho : R.transpose * R = 1)
    (j : Fin 3) : R 0 j ^ 2 + R 1 j ^ 2 + R 2 j ^ 2 = 1 := by
  have h := congrFun (congrFun ho j) j
  simpa [Matrix.mul_apply, Fin.sum_univ_three, Matrix.transpose_apply,
    Matrix.one_apply, sq] using h

theorem rot_adjugate (R : Matrix (Fin 3) (Fin 3) ℝ) (ho : R.transpose * R = 1)
    (hdet : R.det = 1) : R.adjugate = R.transpose := by
  have hmul : R * R.adjugate = 1 := by
    rw [Matrix.mul_adjugate, hdet, one_smul]
  calc R.adjugate = 1 * R.adjugate := (one_mul _).symm
    _ = R.transpose * R * R.adjugate := by rw [ho]
    _ = R.transpose * (R * R.adjugate) := by rw [Matrix.mul_assoc]
    _ = R.transpose := by rw [hmul, mul_one]

set_option maxHeartbeats 1600000 in
theorem roundtrip_generic (R : Matrix (Fin 3) (Fin 3) ℝ) (ho : R.transpose * R = 1)
    (hdet : R.det = 1) (hl1 : R 0 2 ≠ 1) (hl2 : R 0 2 ≠ -1) :
    matOfEulerXYZ (eulerXYZOfMat R) = R := by
  have hrr : R * R.transpose = 1 := Matrix.mul_eq_one_comm.mp ho
  have hrow0 := rot_row_norm R hrr 0
  have hcol2 := rot_col_norm R ho 2
  have hs1 : R 0 2 ^ 2 ≤ 1 := by nlinarith [sq_nonneg (R 1 2), sq_nonneg (R 2 2)]
  have hsne : R 0 2 ^ 2 ≠ 1 := by
    intro hcon
    rw [sq] at hcon
    rcases mul_self_eq_one_iff.mp hcon with h | h
    · exact hl1 h
    · exact hl2 h
  have hs2 : R 0 2 ^ 2 < 1 := lt_of_le_of_ne hs1 hsne
  set cb := Real.sqrt (1 - R 0 2 ^ 2) with hcbdef
  have hcbpos : 0 < cb := Real.sqrt_pos.mpr (by linarith)
  have hcbne : cb ≠ 0 := ne_of_gt hcbpos
  have hcbsq : cb ^ 2 = 1 - R 0 2 ^ 2 := Real.sq_sqrt (by linarith)
  have hsb : Real.sin (Real.arcsin (R 0 2)) = R 0 2 :=
    Real.sin_arcsin (by nlinarith) (by nlinarith)
  have hcbv : Real.cos (Real.arcsin (R 0 2)) = cb := by
    rw [Real.cos_arcsin]
  have hnc : R 0 0 ^ 2 + R 0 1 ^ 2 = 1 - R 0 2 ^ 2 := by linarith
  have habsc : Complex.abs ⟨R 0 0, -(R 0 1)⟩ = cb := by
    rw [Complex.abs_apply, Complex.normSq_mk, hcbdef]
    congr 1
    nlinarith [hnc]
  have hzc : (⟨R 0 0, -(R 0 1)⟩ : ℂ) ≠ 0 := by
    intro h0
    have habs0 : Complex.abs ⟨R 0 0, -(R 0 1)⟩ = 0 := by rw [h0]; simp
    rw [habsc] at habs0
    exact hcbne habs0
  have hcosc : Real.cos (atan2 (-(R 0 1)) (R 0 0)) = R 0 0 / cb := by
    rw [atan2, Complex.cos_arg hzc, habsc]
  have hsinc : Real.sin (atan2 (-(R 0 1)) (R 0 0)) = -(R 0 1) / cb := by
    rw [atan2, Complex.sin_arg, habsc]
  have hna : R 2 2 ^ 2 + R 1 2 ^ 2 = 1 - R 0 2 ^ 2 := by linarith
  have habsa : Complex.abs ⟨R 2 2, -(R 1 2)⟩ = cb := by
    rw [Complex.abs_apply, Complex.normSq_mk, hcbdef]
    congr 1
    nlinarith [hna]
  have hza : (⟨R 2 2, -(R 1 2)⟩ : ℂ) ≠ 0 := by
    intro h0
    have habs0 : Complex.abs ⟨R 2 2, -(R 1 2)⟩ = 0 := by rw [h0]; simp
    rw [habsa] at habs0
    exact hcbne habs0
  have hcosa : Real.cos (atan2 (-(R 1 2)) (R 2 2)) = R 2 2 / cb := by
    rw [atan2, Complex.cos_arg hza, habsa]
  have hsina : Real.sin (atan2 (-(R 1 2)) (R 2 2)) = -(R 1 2) / cb := by
    rw [atan2, Complex.sin_arg, habsa]
  have hadj : R.adjugate = R.transpose := rot_adjugate R ho hdet
  rw [Matrix.adjugate_fin_three] at hadj
  have hc10 : R 1 0 = -(R 0 1 * R 2 2) + R 0 2 * R 2 1 := by
    have h := congrFun (congrFun hadj 0) 1
    simpa [Matrix.transpose_apply] using h.symm
  have hc11 : R 1 1 = R 0 0 * R 2 2 - R 0 2 * R 2 0 := by
    have h := congrFun (congrFun hadj 1) 1
    simpa [Matrix.transpose_apply] using h.symm
  have hc20 : R 2 0 = R 0 1 * R 1 2 - R 0 2 * R 1 1 := by
    have h := congrFun (congrFun hadj 0) 2
    simpa [Matrix.transpose_apply] using h.symm
  have hc21 : R 2 1 = -(R 0 0 * R 1 2) + R 0 2 * R 1 0 := by
    have h := congrFun (congrFun hadj 1) 2
    simpa [Matrix.transpose_apply] using h.symm
  unfold eulerXYZOfMat
  rw [if_neg (by push_neg; exact ⟨hl1, hl2⟩)]
  unfold matOfEulerXYZ Rx Ry Rz
  ext i j
  fin_cases i <;> fin_cases j <;>
    (simp [Matrix.mul_apply, Fin.sum_univ_three, hsb, hcbv, hcosc, hsinc, hcosa, hsina] <;>
      field_simp)
  · linear_combination (-(cb * cb)) * hc10 - (R 0 2 * (cb * cb)) * hc21
      - (R 1 0 * (cb * cb)) * hcbsq
  · linear_combination (-(cb * cb)) * hc11 + (R 0 2 * (cb * cb)) * hc20
      - (R 1 1 * (cb * cb)) * hcbsq
  · linear_combination (-(cb * cb)) * hc20 + (R 0 2 * (cb * cb)) * hc11
      - (R 2 0 * (cb * cb)) * hcbsq
  · linear_combination (-(cb * cb)) * hc21 - (R 0 2 * (cb * cb)) * hc10
      - (R 2 1 * (cb * cb)) * hcbsq

theorem roundtrip_lock_pos (R : Matrix (Fin 3) (Fin 3) ℝ) (ho : R.transpose * R = 1)
    (hdet : R.det = 1) (hs : R 0 2 = 1) :
    matOfEulerXYZ (eulerXYZOfMat R) = R := by
  have hrr : R * R.transpose = 1 := Matrix.mul_eq_one_comm.mp ho
  have hrow0 := rot_row_norm R hrr 0
  have hrow1 := rot_row_norm R hrr 1
  have hcol2 := rot_col_norm R ho 2
  rw [hs] at hrow0 hcol2
  have h00 : R 0 0 = 0 := by
    have h2 : R 0 0 ^ 2 = 0 := by nlinarith [sq_nonneg (R 0 1)]
    exact sq_eq_zero_iff.mp h2
  have h01 : R 0 1 = 0 := by
    have h2 : R 0 1 ^ 2 = 0 := by nlinarith [sq_nonneg (R 0 0)]
    exact sq_eq_zero_iff.mp h2
  have h12 : R 1 2 = 0 := by
    have h2 : R 1 2 ^ 2 = 0 := by nlinarith [sq_nonneg (R 2 2)]
    exact sq_eq_zero_iff.mp h2
  have h22 : R 2 2 = 0 := by
    have h2 : R 2 2 ^ 2 = 0 := by nlinarith [sq_nonneg (R 1 2)]
    exact sq_eq_zero_iff.mp h2
  have hn1 : R 1 0 ^ 2 + R 1 1 ^ 2 = 1 := by
    rw [h12] at hrow1
    nlinarith [hrow1]
  have hadj : R.adjugate = R.transpose := rot_adjugate R ho hdet
  rw [Matrix.adjugate_fin_three] at hadj
  have hc20 : R 2 0 = R 0 1 * R 1 2 - R 0 2 * R 1 1 := by
    have h := congrFun (congrFun hadj 0) 2
    simpa [Matrix.transpose_apply] using h.symm
  have hc21 : R 2 1 = -(R 0 0 * R 1 2) + R 0 2 * R 1 0 := by
    have h := congrFun (congrFun hadj 1) 2
    simpa [Matrix.transpose_apply] using h.symm
  have h20 : R 2 0 = -(R 1 1) := by
    rw [hc20, h01, hs]
    ring
  have h21 : R 2 1 = R 1 0 := by
    rw [hc21, h00, hs]
    ring
  have habs : Complex.abs ⟨R 1 1, R 2 1⟩ = 1 := by
    rw [h21, Complex.abs_apply, Complex.normSq_mk,
      show R 1 1 * R 1 1 + R 1 0 * R 1 0 = 1 from by nlinarith [hn1]]
    exact Real.sqrt_one
  have hz : (⟨R 1 1, R 2 1⟩ : ℂ) ≠ 0 := by
    intro h0
    have habs0 : Complex.abs ⟨R 1 1, R 2 1⟩ = 0 := by rw [h0]; simp
    rw [habs] at habs0
    norm_num at habs0
  have hcosa : Real.cos (atan2 (R 2 1) (R 1 1)) = R 1 1 := by
    rw [atan2, Complex.cos_arg hz, habs, div_one]
  have hsina : Real.sin (atan2 (R 2 1) (R 1 1)) = R 1 0 := by
    rw [atan2, Complex.sin_arg, habs, div_one, h21]
  rw [h21] at hcosa hsina
  unfold eulerXYZOfMat
  rw [if_pos (Or.inl hs)]
  unfold matOfEulerXYZ Rx Ry Rz
  rw [hs, Real.arcsin_one]
  ext i j
  fin_cases i <;> fin_cases j <;>
    simp [Matrix.mul_apply, Fin.sum_univ_three, Real.cos_pi_div_two, Real.sin_pi_div_two,
      Matrix.vecHead, Matrix.vecTail, hcosa, hsina, h00, h01, h12, h22, h20, h21, hs]

theorem roundtrip_lock_neg (R : Matrix (Fin 3) (Fin 3) ℝ) (ho : R.transpose * R = 1)
    (hdet : R.det = 1) (hs : R 0 2 = -1) :
    matOfEulerXYZ (eulerXYZOfMat R) = R := by
  have hrr : R * R.transpose = 1 := Matrix.mul_eq_one_comm.mp ho
  have hrow0 := rot_row_norm R hrr 0
  have hrow1 := rot_row_norm R hrr 1
  have hcol2 := rot_col_norm R ho 2
  rw [hs] at hrow0 hcol2
  have h00 : R 0 0 = 0 := by
    have h2 : R 0 0 ^ 2 = 0 := by nlinarith [sq_nonneg (R 0 1)]
    exact sq_eq_zero_iff.mp h2
  have h01 : R 0 1 = 0 := by
    have h2 : R 0 1 ^ 2 = 0 := by nlinarith [sq_nonneg (R 0 0)]
    exact sq_eq_zero_iff.mp h2
  have h12 : R 1 2 = 0 := by
    have h2 : R 1 2 ^ 2 = 0 := by nlinarith [sq_nonneg (R 2 2)]
    exact sq_eq_zero_iff.mp h2
  have h22 : R 2 2 = 0 := by
    have h2 : R 2 2 ^ 2 = 0 := by nlinarith [sq_nonneg (R 1 2)]
    exact sq_eq_zero_iff.mp h2
  have hn1 : R 1 0 ^ 2 + R 1 1 ^ 2 = 1 := by
    rw [h12] at hrow1
    nlinarith [hrow1]
  have hadj : R.adjugate = R.transpose := rot_adjugate R ho hdet
  rw [Matrix.adjugate_fin_three] at hadj
  have hc20 : R 2 0 = R 0 1 * R 1 2 - R 0 2 * R 1 1 := by
    have h := congrFun (congrFun hadj 0) 2
    simpa [Matrix.transpose_apply] using h.symm
  have hc21 : R 2 1 = -(R 0 0 * R 1 2) + R 0 2 * R 1 0 := by
    have h := congrFun (congrFun hadj 1) 2
    simpa [Matrix.transpose_apply] using h.symm
  have h20 : R 2 0 = R 1 1 := by
    rw [hc20, h01, hs]
    ring
  have h21 : R 2 1 = -(R 1 0) := by
    rw [hc21, h00, hs]
    ring
  have habs : Complex.abs ⟨R 1 1, R 2 1⟩ = 1 := by
    rw [h21, Complex.abs_apply, Complex.normSq_mk,
      show R 1 1 * R 1 1 + -(R 1 0) * -(R 1 0) = 1 from by nlinarith [hn1]]
    exact Real.sqrt_one
  have hz : (⟨R 1 1, R 2 1⟩ : ℂ) ≠ 0 := by
    intro h0
    have habs0 : Complex.abs ⟨R 1 1, R 2 1⟩ = 0 := by rw [h0]; simp
    rw [habs] at habs0
    norm_num at habs0
  have hcosa : Real.cos (atan2 (R 2 1) (R 1 1)) = R 1 1 := by
    rw [atan2, Complex.cos_arg hz, habs, div_one]
  have hsina : Real.sin (atan2 (R 2 1) (R 1 1)) = -(R 1 0) := by
    rw [atan2, Complex.sin_arg, habs, div_one, h21]
  rw [h21] at hcosa hsina
  unfold eulerXYZOfMat
  rw [if_pos (Or.inr hs)]
  unfold matOfEulerXYZ Rx Ry Rz
  rw [hs, Real.arcsin_neg_one]
  ext i j
  fin_cases i <;> fin_cases j <;>
    simp [Matrix.mul_apply, Fin.sum_univ_three, Real.cos_pi_div_two, Real.sin_pi_div_two,
      Matrix.vecHead, Matrix.vecTail, hcosa, hsina, h00, h01, h12, h22, h20, h21, hs]

/-- C8: for every rigid transform whose rotation block is orthonormal with
determinant one, reconstructing a pose from the extracted
(position, intrinsic X-Y-Z Euler angle) channels is the exact inverse of
extraction; in the real-number model the claim's floating-point tolerance
is exact equality. -/
theorem pose_roundtrip (T : Rigid) (h : isRot T.rot) :
    reconstructPose (extractPose T) = T := by
  obtain ⟨ho, hdet⟩ := h
  show Rigid.mk (matOfEulerXYZ (eulerXYZOfMat T.rot)) T.trans = T
  have hrot : matOfEulerXYZ (eulerXYZOfMat T.rot) = T.rot := by
    by_cases hl : T.rot 0 2 = 1 ∨ T.rot 0 2 = -1
    · rcases hl with hl | hl
      · exact roundtrip_lock_pos T.rot ho hdet hl
      · exact roundtrip_lock_neg T.rot ho hdet hl
    · push_neg at hl
      exact roundtrip_generic T.rot ho hdet hl.1 hl.2
  rw [hrot]

/-- Witness for `pose_roundtrip` at the identity transform. -/
theorem pose_roundtrip_witness :
    isRot (Rigid.mk 1 (fun _ => 0)).rot
    ∧ reconstructPose (extractPose (Rigid.mk 1 (fun _ => 0))) = Rigid.mk 1 (fun _ => 0) :=
  ⟨⟨by simp, by simp⟩, pose_roundtrip (Rigid.mk 1 (fun _ => 0)) ⟨by simp, by simp⟩⟩
end PoseKF
